import Mathlib

/-!
Verification of the MultiQC plotly plotting data-reduction engine
(`multiqc/plots/plotly/violin.py`, `bar.py`, `scatter.py`).

The embedding models numeric values as rationals. Both NumPy and Python
floats are modelled exactly; the algorithms under study use only field
operations and comparisons, so rational arithmetic reproduces them up to
floating rounding, which no statement below depends on. Where NaN matters
(bar category data), values are `Option ℚ` with `none` playing NaN and the
arithmetic NaN-propagating, mirroring IEEE semantics for the operations
used. Standard deviations are never needed by themselves: every test the
code makes on `np.std` is a zero test or a comparison of a z-score with a
nonnegative cutoff, both of which are expressed on variances and squared
z-scores (`std == 0` iff `var == 0`; for `0 ≤ c`, `z > c` iff `z² > c²`;
a negative cutoff is below every nonnegative z-score).

`np.argsort` is realised with a stable insertion sort; NumPy's default
quicksort is unstable, so the order among tied values is unspecified there.
No theorem below depends on the relative order of tied values.
-/

/-- Sample identifiers are plain strings. -/
abbrev SampleId := String

/-- Population mean of a list of rationals (`np.mean`). -/
def popMean (l : List ℚ) : ℚ := l.sum / l.length

/-- Population variance of a list of rationals, the square of `np.std`.
The check `std_dev == 0` in the source is modelled as `popVar = 0`. -/
def popVar (l : List ℚ) : ℚ :=
  ((l.map (fun v => (v - popMean l) ^ 2)).sum) / l.length

/-- Squared z-score of a value: `((v - mean) / std) ^ 2` written without the
square root as `(v - mean) ^ 2 / var`. -/
def zSq (mean var v : ℚ) : ℚ := (v - mean) ^ 2 / var

/-- The comparison `z_score > cutoff` expressed on squared z-scores: for a
nonnegative cutoff it is `zsq > cutoff ^ 2`; a negative cutoff lies below
every (nonnegative) z-score. -/
def zsqGtCutoff (zsq cutoff : ℚ) : Bool :=
  if 0 ≤ cutoff then decide (cutoff ^ 2 < zsq) else true

/-- Number of squared z-scores strictly above the cutoff:
`len(np.where(z_scores > z_cutoff)[0])` in `find_outliers`. -/
def cutoffCount (zsqs : List ℚ) (cutoff : ℚ) : ℕ :=
  (zsqs.filter (fun z => zsqGtCutoff z cutoff)).length

/-- Number of loop iterations still possible for the `find_outliers`
adaptive cutoff loop starting at `z`: the cutoff drops by 1/5 per step and
the loop requires the cutoff to stay above 1. -/
def cutoffFuel (z : ℚ) : ℕ := (Int.ceil (5 * (z - 1))).toNat

/-- Fuelled unfolding of the `find_outliers` loop
`while len(indices) <= len(added_values) and z_cutoff > 1.0`
(violin.py lines 757-761). Returns the final cutoff and the number of
`z_cutoff -= 0.2` steps taken. `findOutliersCutoff_eq` below shows the
fuel used by `findOutliersCutoff` always suffices, so the pair satisfies
exactly the loop's fixpoint equation. -/
def findOutliersCutoffAux (count : ℚ → ℕ) (nAdded : ℕ) : ℕ → ℚ → ℚ × ℕ
  | 0, z => (z, 0)
  | fuel + 1, z =>
    if count z ≤ nAdded ∧ 1 < z then
      let p := findOutliersCutoffAux count nAdded fuel (z - 1 / 5)
      (p.1, p.2 + 1)
    else (z, 0)

/-- Final cutoff and iteration count of the `find_outliers` adaptive
cutoff loop started at `z`. -/
def findOutliersCutoff (count : ℚ → ℕ) (nAdded : ℕ) (z : ℚ) : ℚ × ℕ :=
  findOutliersCutoffAux count nAdded (cutoffFuel z) z

/-- The sentinel values appended by `find_outliers`: `minval` (if given)
then `maxval` (if given). -/
def sentinels (minval maxval : Option ℚ) : List ℚ :=
  minval.toList ++ maxval.toList

/-- Truthiness test `top_n is not None and top_n <= 0` from the guard of
`find_outliers`. -/
def topNNonPos : Option ℤ → Bool
  | some n => decide (n ≤ 0)
  | none => false

/-- Mask for the `top_n` branch of `find_outliers`:
`outlier_status[np.argsort(z_scores)[-top_n:]] = True`. The argsort is
realised by sorting the index list by squared z-score with a stable
insertion sort. -/
def topNMask (zsqs : List ℚ) (k : ℤ) : List Bool :=
  let order :=
    @List.insertionSort ℕ (fun i j => zsqs.getD i 0 ≤ zsqs.getD j 0)
      (fun i j => inferInstanceAs (Decidable (zsqs.getD i 0 ≤ zsqs.getD j 0)))
      (List.range zsqs.length)
  let top := order.drop (zsqs.length - k.toNat)
  (List.range zsqs.length).map (fun i => decide (i ∈ top))

/-- Mask for the adaptive-cutoff branch of `find_outliers`: run the cutoff
loop, then flag every z-score above the final cutoff. -/
def adaptiveMask (zsqs : List ℚ) (nAdded : ℕ) (z_cutoff : ℚ) : List Bool :=
  let cutoff := (findOutliersCutoff (cutoffCount zsqs) nAdded z_cutoff).1
  zsqs.map (fun z => zsqGtCutoff z cutoff)

/-- Shallow embedding of `find_outliers` (violin.py lines 711-766).
Returns the boolean outlier mask. The default arguments of the source are
passed explicitly by callers (`top_n=None`, `z_cutoff=2.0`). -/
def find_outliers (values : List ℚ) (top_n : Option ℤ) (z_cutoff : ℚ)
    (minval maxval : Option ℚ) : List Bool :=
  if values.isEmpty || topNNonPos top_n then
    List.replicate values.length false
  else
    let added := sentinels minval maxval
    let npValues := values ++ added
    if popVar npValues = 0 then
      List.replicate npValues.length false
    else
      let zsqs := npValues.map (zSq (popMean npValues) (popVar npValues))
      let status :=
        match top_n with
        | some k => topNMask zsqs k
        | none => adaptiveMask zsqs added.length z_cutoff
      if added.length ≠ 0 then status.take values.length else status

/-- Number of loop iterations still possible for the scatter annotation
threshold loop at threshold `t`: the threshold rises by 1/5 per step while
it is at most 6. -/
def scatterFuel (t : ℚ) : ℕ := (Int.floor (5 * (6 - t)) + 1).toNat

/-- Fuelled unfolding of the scatter annotation threshold loop
(scatter.py lines 111-118): `while threshold <= 6.0`, break when
`n_annotated + n_outliers <= MAX_ANNOTATIONS` (10), else
`threshold += 0.2`. Returns the final threshold and the number of
increments taken. -/
def scatterThresholdAux (count : ℚ → ℕ) (nLabeled : ℕ) : ℕ → ℚ → ℚ × ℕ
  | 0, t => (t, 0)
  | fuel + 1, t =>
    if t ≤ 6 then
      if nLabeled + count t ≤ 10 then (t, 0)
      else
        let p := scatterThresholdAux count nLabeled fuel (t + 1 / 5)
        (p.1, p.2 + 1)
    else (t, 0)

/-- The scatter annotation threshold loop started at threshold `t`. -/
def scatterThresholdSearch (count : ℚ → ℕ) (nLabeled : ℕ) (t : ℚ) : ℚ × ℕ :=
  scatterThresholdAux count nLabeled (scatterFuel t) t

/-- Count of points whose x or y squared z-score exceeds the threshold:
`np.count_nonzero((x_z_scores > threshold) | (y_z_scores > threshold))`. -/
def scatterOutlierCount (xzsqs yzsqs : List ℚ) (t : ℚ) : ℕ :=
  ((xzsqs.zip yzsqs).filter (fun p => zsqGtCutoff p.1 t || zsqGtCutoff p.2 t)).length

/-- The scatter annotation search as the source runs it: threshold starts
at 1.0, outlier counts come from the x/y squared z-scores. -/
def scatterLabelThreshold (xzsqs yzsqs : List ℚ) (nLabeled : ℕ) : ℚ × ℕ :=
  scatterThresholdSearch (scatterOutlierCount xzsqs yzsqs) nLabeled 1

/-- Auxiliary for `takeEvery`, structurally recursive on a fuel that the
wrapper sets to the list length (always sufficient, since each step
consumes at least one element). -/
def takeEveryAux (k : ℕ) : ℕ → List α → List α
  | 0, _ => []
  | _, [] => []
  | fuel + 1, a :: rest => a :: takeEveryAux k fuel (rest.drop (k - 1))

/-- Python slice `l[::k]` for `k ≥ 1`: the elements at positions
`0, k, 2k, ...`. -/
def takeEvery (k : ℕ) (l : List α) : List α := takeEveryAux k l.length l

/-- Ordering of sample/value pairs by value, the key of the downsampling
argsort. -/
def valueLe (p q : SampleId × ℚ) : Prop := p.2 ≤ q.2

instance : DecidableRel valueLe :=
  fun p q => inferInstanceAs (Decidable (p.2 ≤ q.2))

instance : IsTotal (SampleId × ℚ) valueLe := ⟨fun a b => le_total a.2 b.2⟩

instance : IsTrans (SampleId × ℚ) valueLe := ⟨fun _ _ _ h h2 => le_trans h h2⟩

/-- The violin downsampling step (violin.py lines 196-206): when a cap is
configured and the series is strictly larger, sort the (sample, value)
pairs by value ascending and keep every `ceil(n / cap)`-th one. -/
def rankDownsample (cap : Option ℕ) (pairs : List (SampleId × ℚ)) :
    List (SampleId × ℚ) :=
  match cap with
  | none => pairs
  | some c =>
    if c < pairs.length then
      takeEvery ((pairs.length + c - 1) / c) (List.insertionSort valueLe pairs)
    else pairs

/-- A raw metric value as collected for the violin plot: a number or a
string. Non-finite numeric entries are dropped by the caller before the
stages modelled here, so the numeric side is an ordinary rational. -/
inductive RawVal where
  | num (q : ℚ)
  | str (s : String)
deriving DecidableEq

/-- True when the value is numeric (`isinstance(v, (int, float))`). -/
def RawVal.isNum : RawVal → Bool
  | num _ => true
  | str _ => false

/-- The numeric content of a value, if any. -/
def RawVal.asNum : RawVal → Option ℚ
  | num q => some q
  | str _ => none

/-- The numeric (sample, value) pairs of a series, in order. -/
def numericPairs (pairs : List (SampleId × RawVal)) : List (SampleId × ℚ) :=
  pairs.filterMap (fun p => (p.2.asNum).map (fun q => (p.1, q)))

/-- The outlier point selection of violin `Dataset.create`
(violin.py lines 176-190): run `find_outliers` on the values with the
column's declared min/max as sentinel bounds and keep the flagged pairs. -/
def violinOutlierPoints (pairs : List (SampleId × ℚ)) (dmin dmax : Option ℚ) :
    List (SampleId × ℚ) :=
  let statuses := find_outliers (pairs.map Prod.snd) none 2 dmin dmax
  (pairs.zip statuses).filterMap (fun q => if q.2 then some q.1 else none)

/-- The interactive scatter values stored by violin `Dataset.create`
(violin.py lines 166-192). `thrNoPoints` is `config.violin_min_threshold_no_points`
and `thrOutliers` is `config.violin_min_threshold_outliers`; both are
compared against the current series size. -/
def violinScatterValues (thrNoPoints thrOutliers : ℕ)
    (pairs : List (SampleId × RawVal)) (dmin dmax : Option ℚ) :
    List (SampleId × ℚ) :=
  let showPoints := pairs.length ≤ thrNoPoints
  let showOnlyOutliers := thrOutliers < pairs.length
  if ¬ showPoints then []
  else if ¬ showOnlyOutliers then []
  else if ¬ (pairs.all fun p => p.2.isNum) then []
  else violinOutlierPoints (numericPairs pairs) dmin dmax

/-- The interactive points actually drawn for a metric by `create_figure`
(violin.py lines 354-358): nothing unless `show_points`; the stored
scatter values when `show_only_outliers`, else the violin values
themselves (passed in as `violinPairs`). -/
def violinDrawnPoints (thrNoPoints thrOutliers : ℕ)
    (pairs : List (SampleId × RawVal)) (dmin dmax : Option ℚ)
    (violinPairs : List (SampleId × RawVal)) : List (SampleId × RawVal) :=
  let showPoints := pairs.length ≤ thrNoPoints
  let showOnlyOutliers := thrOutliers < pairs.length
  if showPoints then
    if showOnlyOutliers then
      (violinScatterValues thrNoPoints thrOutliers pairs dmin dmax).map
        (fun p => (p.1, RawVal.num p.2))
    else violinPairs
  else []

/-- The degenerate-zero remap of violin `Dataset.create`
(violin.py lines 152-158): a declared 0..0 range becomes 0..1 with a
single tick at 0; otherwise bounds pass through and no ticks are set. -/
def remapZeroRange (dmin dmax : Option ℚ) :
    (Option ℚ × Option ℚ) × Option (List ℚ) :=
  if dmin = some 0 ∧ dmax = some 0 then ((some 0, some 1), some [0])
  else ((dmin, dmax), none)

/-- The point padding of violin `Dataset.create` (violin.py lines 160-163):
when points are shown, `xmin` is first lowered by 0.5% of the span and
`xmax` is then raised by 0.5% of the span measured from the new `xmin`. -/
def padRange (showPoints : Bool) (a b : ℚ) : ℚ × ℚ :=
  if showPoints then
    let a2 := a - (b - a) * (1 / 200)
    (a2, b + (b - a2) * (1 / 200))
  else (a, b)

/-- The axis plan (tick values, range) derived for a numeric violin metric
from its declared bounds (violin.py lines 150-164). The range is only set
when both bounds are present after the remap. -/
def violinAxis (showPoints : Bool) (dmin dmax : Option ℚ) :
    Option (List ℚ) × Option (ℚ × ℚ) :=
  let r := remapZeroRange dmin dmax
  match r.1.1, r.1.2 with
  | some a, some b => (r.2, some (padRange showPoints a b))
  | _, _ => (r.2, none)

/-- A Python float for the bar plot: `none` is NaN, `some q` a finite
value. -/
abbrev PyFloat := Option ℚ

/-- An input category dict for the bar plot (`CatDataDict`): `data_pct` is
present or absent. -/
structure InputCat where
  name : String
  color : String
  data : List PyFloat
  data_pct : Option (List PyFloat)
deriving DecidableEq

/-- An assembled bar `Category` (bar.py class `Category`). -/
structure BarCategory where
  name : String
  color : String
  data : List PyFloat
  data_pct : List PyFloat
deriving DecidableEq

instance : Inhabited BarCategory := ⟨⟨"", "", [], []⟩⟩

/-- An assembled bar `Dataset`: categories plus the (reversed) sample
list. -/
structure BarDataset where
  cats : List BarCategory
  samples : List String
deriving DecidableEq

/-- The per-category body of bar `Dataset.create` (bar.py lines 99-123):
format name and color (the external helpers `split_long_string` and
`spectra` live outside the modelled sources and are passed in as opaque
functions), reverse `data` and `data_pct` to match the reversed samples,
and assert that the number of samples equals the data length
(and the `data_pct` length when that list is nonempty). -/
def buildCats (fmtName fmtColor : String → String) (nSamples : ℕ) :
    List InputCat → Except String (List BarCategory)
  | [] => Except.ok []
  | ic :: rest =>
    let cat : BarCategory :=
      { name := fmtName ic.name
        color := fmtColor ic.color
        data := ic.data.reverse
        data_pct := (ic.data_pct.getD []).reverse }
    if nSamples = cat.data.length then
      if cat.data_pct ≠ [] ∧ nSamples ≠ cat.data_pct.length then
        Except.error "assert failed: len samples == len cat data_pct"
      else
        (buildCats fmtName fmtColor nSamples rest).map (fun cs => cat :: cs)
    else Except.error "assert failed: len samples == len cat data"

/-- Bar `Dataset.create` (bar.py lines 90-131): reverse the sample list,
build every category (asserting length agreement), and assemble the
dataset. An assertion failure is an `Except.error`. -/
def barDatasetCreate (fmtName fmtColor : String → String)
    (cats : List InputCat) (samples : List String) :
    Except String BarDataset :=
  let rsamples := samples.reverse
  (buildCats fmtName fmtColor rsamples.length cats).map
    (fun cs => { cats := cs, samples := rsamples })

/-- The zero-padding loop of `BarPlot.create` (bar.py lines 358-362):
extend any category whose data is shorter than the sample list with
zeros. -/
def padCats (ds : BarDataset) : BarDataset :=
  { ds with
    cats := ds.cats.map (fun c =>
      if c.data.length < ds.samples.length then
        { c with
          data := c.data ++ List.replicate (ds.samples.length - c.data.length) (some 0) }
      else c) }

/-- Contribution of one entry to a percentage denominator
(bar.py lines 368-372): NaN entries are skipped, others contribute their
absolute value. -/
def absOrZero : PyFloat → ℚ
  | none => 0
  | some v => |v|

/-- The per-sample denominators of the bar percentage pass: one sum per
index of the first category's data, each the sum over categories of the
absolute values of the non-NaN entries at that index. -/
def pctSums (cats : List BarCategory) : List ℚ :=
  (List.range ((cats.headD default).data.length)).map
    (fun i => (cats.map (fun c => absOrZero (c.data.getD i none))).sum)

/-- One percentage entry (bar.py lines 377-382): a zero denominator yields
0 outright; otherwise the (possibly NaN) value is divided by the
denominator and scaled to percent, NaN propagating. -/
def pctValue (s : ℚ) (v : PyFloat) : PyFloat :=
  if s = 0 then some 0 else v.map (fun x => x / s * 100)

/-- The bar percentage pass over the categories of one dataset
(bar.py lines 364-383): compute the per-sample denominators, then set
every category's `data_pct`. -/
def catsPct (cats : List BarCategory) : List BarCategory :=
  let sums := pctSums cats
  cats.map (fun c =>
    { c with
      data_pct := (List.range c.data.length).map
        (fun i => pctValue (sums.getD i 0) (c.data.getD i none)) })

/-- The percentage pass applied to a bar dataset. -/
def addPct (ds : BarDataset) : BarDataset :=
  { ds with cats := catsPct ds.cats }

/-- NaN-propagating addition of Python floats. -/
def nanAdd : PyFloat → PyFloat → PyFloat
  | some x, some y => some (x + y)
  | _, _ => none

/-- NaN-propagating sum of a list of Python floats. -/
def nanSum (l : List PyFloat) : PyFloat := l.foldr nanAdd (some 0)

/-- NaN-propagating absolute value of a Python float. -/
def nanAbs : PyFloat → PyFloat
  | none => none
  | some x => some |x|

/-- The fuel used by `findOutliersCutoff` drops by exactly one per loop
step while the cutoff is above 1. -/
theorem cutoffFuel_step {z : ℚ} (h : 1 < z) :
    cutoffFuel z = cutoffFuel (z - 1 / 5) + 1 := by
  unfold cutoffFuel
  have h1 : (5 : ℚ) * (z - 1 / 5 - 1) = 5 * (z - 1) - 1 := by ring
  rw [h1, Int.ceil_sub_one]
  have h2 : (0 : ℤ) < Int.ceil ((5 : ℚ) * (z - 1)) := by
    rw [Int.ceil_pos]
    linarith
  omega

/-- `findOutliersCutoff` satisfies the fixpoint equation of the source
loop: the fuel chosen by the wrapper always suffices. -/
theorem findOutliersCutoff_eq (count : ℚ → ℕ) (nAdded : ℕ) (z : ℚ) :
    findOutliersCutoff count nAdded z =
      if count z ≤ nAdded ∧ 1 < z then
        ((findOutliersCutoff count nAdded (z - 1 / 5)).1,
          (findOutliersCutoff count nAdded (z - 1 / 5)).2 + 1)
      else (z, 0) := by
  by_cases h : count z ≤ nAdded ∧ 1 < z
  · rw [if_pos h]
    unfold findOutliersCutoff
    rw [cutoffFuel_step h.2]
    simp [findOutliersCutoffAux, h]
  · rw [if_neg h]
    unfold findOutliersCutoff
    cases hf : cutoffFuel z with
    | zero => rfl
    | succ n => simp [findOutliersCutoffAux, h]

/-- The iteration count of the fuelled cutoff loop never exceeds the
fuel. -/
theorem findOutliersCutoffAux_steps_le (count : ℚ → ℕ) (nAdded : ℕ) :
    ∀ (fuel : ℕ) (z : ℚ), (findOutliersCutoffAux count nAdded fuel z).2 ≤ fuel := by
  intro fuel
  induction fuel with
  | zero => intro z; simp [findOutliersCutoffAux]
  | succ n ih =>
    intro z
    by_cases h : count z ≤ nAdded ∧ 1 < z
    · have := ih (z - 1 / 5)
      simp only [findOutliersCutoffAux, if_pos h]
      omega
    · simp [findOutliersCutoffAux, h]

/-- The fuel used by `scatterThresholdSearch` drops by exactly one per
loop step while the threshold is at most 6. -/
theorem scatterFuel_step {t : ℚ} (h : t ≤ 6) :
    scatterFuel t = scatterFuel (t + 1 / 5) + 1 := by
  unfold scatterFuel
  have h1 : (5 : ℚ) * (6 - (t + 1 / 5)) = 5 * (6 - t) - 1 := by ring
  rw [h1, Int.floor_sub_one]
  have h2 : (0 : ℤ) ≤ Int.floor ((5 : ℚ) * (6 - t)) := by
    rw [Int.le_floor]
    push_cast
    linarith
  omega

/-- `scatterThresholdSearch` satisfies the fixpoint equation of the source
loop: the fuel chosen by the wrapper always suffices. -/
theorem scatterThresholdSearch_eq (count : ℚ → ℕ) (nLabeled : ℕ) (t : ℚ) :
    scatterThresholdSearch count nLabeled t =
      if t ≤ 6 then
        if nLabeled + count t ≤ 10 then (t, 0)
        else
          ((scatterThresholdSearch count nLabeled (t + 1 / 5)).1,
            (scatterThresholdSearch count nLabeled (t + 1 / 5)).2 + 1)
      else (t, 0) := by
  by_cases h6 : t ≤ 6
  · rw [if_pos h6]
    unfold scatterThresholdSearch
    rw [scatterFuel_step h6]
    by_cases hb : nLabeled + count t ≤ 10
    · simp [scatterThresholdAux, h6, hb]
    · simp [scatterThresholdAux, h6, hb]
  · rw [if_neg h6]
    unfold scatterThresholdSearch
    cases hf : scatterFuel t with
    | zero => rfl
    | succ n => simp [scatterThresholdAux, h6]

/-- The iteration count of the fuelled threshold loop never exceeds the
fuel. -/
theorem scatterThresholdAux_steps_le (count : ℚ → ℕ) (nLabeled : ℕ) :
    ∀ (fuel : ℕ) (t : ℚ), (scatterThresholdAux count nLabeled fuel t).2 ≤ fuel := by
  intro fuel
  induction fuel with
  | zero => intro t; simp [scatterThresholdAux]
  | succ n ih =>
    intro t
    by_cases h6 : t ≤ 6
    · by_cases hb : nLabeled + count t ≤ 10
      · simp [scatterThresholdAux, h6, hb]
      · have := ih (t + 1 / 5)
        simp only [scatterThresholdAux, if_pos h6, if_neg hb]
        omega
    · simp [scatterThresholdAux, h6]

/-- A threshold bounded by 6.2 stays bounded by 6.2 through the loop:
each step adds 1/5 and only fires when the threshold is at most 6. -/
theorem scatterThresholdAux_final_le (count : ℚ → ℕ) (nLabeled : ℕ) :
    ∀ (fuel : ℕ) (t : ℚ), t ≤ 31 / 5 →
      (scatterThresholdAux count nLabeled fuel t).1 ≤ 31 / 5 := by
  intro fuel
  induction fuel with
  | zero => intro t ht; simpa [scatterThresholdAux] using ht
  | succ n ih =>
    intro t ht
    by_cases h6 : t ≤ 6
    · by_cases hb : nLabeled + count t ≤ 10
      · simpa [scatterThresholdAux, h6, hb] using h6.trans (by norm_num)
      · have hrec := ih (t + 1 / 5) (by linarith)
        simp only [scatterThresholdAux, if_pos h6, if_neg hb]
        exact hrec
    · simpa [scatterThresholdAux, h6] using ht

/-- C9: both adaptive threshold searches are bounded: the `find_outliers`
cutoff loop satisfies exactly the source's loop equation (it lowers the
cutoff by 0.2 per step only while the above-cutoff count is at most the
sentinel count and the cutoff is above 1.0) and takes at most 5 steps from
the default cutoff 2.0; the scatter annotation loop satisfies its loop
equation (raising the threshold from 1.0 in 0.2 steps) and takes at most
26 steps, with the final threshold never beyond 6.2 — it stops no later
than when the threshold exceeds 6.0. -/
theorem claim_C9 :
    (∀ (count : ℚ → ℕ) (nAdded : ℕ) (z : ℚ),
      findOutliersCutoff count nAdded z =
        if count z ≤ nAdded ∧ 1 < z then
          ((findOutliersCutoff count nAdded (z - 1 / 5)).1,
            (findOutliersCutoff count nAdded (z - 1 / 5)).2 + 1)
        else (z, 0)) ∧
    (∀ (zsqs : List ℚ) (nAdded : ℕ),
      (findOutliersCutoff (cutoffCount zsqs) nAdded 2).2 ≤ 5) ∧
    (∀ (count : ℚ → ℕ) (nLabeled : ℕ) (t : ℚ),
      scatterThresholdSearch count nLabeled t =
        if t ≤ 6 then
          if nLabeled + count t ≤ 10 then (t, 0)
          else
            ((scatterThresholdSearch count nLabeled (t + 1 / 5)).1,
              (scatterThresholdSearch count nLabeled (t + 1 / 5)).2 + 1)
        else (t, 0)) ∧
    (∀ (xzsqs yzsqs : List ℚ) (nLabeled : ℕ),
      (scatterLabelThreshold xzsqs yzsqs nLabeled).2 ≤ 26 ∧
      (scatterLabelThreshold xzsqs yzsqs nLabeled).1 ≤ 31 / 5) := by
  refine ⟨findOutliersCutoff_eq, ?_, scatterThresholdSearch_eq, ?_⟩
  · intro zsqs nAdded
    have h5 : cutoffFuel 2 = 5 := by
      unfold cutoffFuel
      have h : ((5 : ℚ) * (2 - 1)) = ((5 : ℤ) : ℚ) := by norm_num
      rw [h, Int.ceil_intCast]
      rfl
    have := findOutliersCutoffAux_steps_le (cutoffCount zsqs) nAdded (cutoffFuel 2) 2
    unfold findOutliersCutoff
    omega
  · intro xzsqs yzsqs nLabeled
    have h26 : scatterFuel 1 = 26 := by
      unfold scatterFuel
      have h : ((5 : ℚ) * (6 - 1)) = ((25 : ℤ) : ℚ) := by norm_num
      rw [h, Int.floor_intCast]
      rfl
    constructor
    · have := scatterThresholdAux_steps_le (scatterOutlierCount xzsqs yzsqs)
        nLabeled (scatterFuel 1) 1
      unfold scatterLabelThreshold scatterThresholdSearch
      omega
    · exact scatterThresholdAux_final_le _ _ _ _ (by norm_num)

/-- C5: for a numeric metric with declared bounds dmin = dmax = 0, the
derived axis remaps the range to 0..1 before any point padding, the final
range is non-degenerate, and the tick positions are exactly [0]. -/
theorem claim_C5 (showPoints : Bool) :
    remapZeroRange (some 0) (some 0) = ((some 0, some 1), some [0]) ∧
    (violinAxis showPoints (some 0) (some 0)).1 = some [0] ∧
    ∃ lo hi : ℚ, (violinAxis showPoints (some 0) (some 0)).2 = some (lo, hi) ∧
      lo < hi := by
  cases showPoints with
  | false =>
    refine ⟨by norm_num [remapZeroRange], by norm_num [violinAxis, remapZeroRange],
      0, 1, ?_, by norm_num⟩
    norm_num [violinAxis, remapZeroRange, padRange]
  | true =>
    refine ⟨by norm_num [remapZeroRange], by norm_num [violinAxis, remapZeroRange],
      -(1 / 200), 40201 / 40000, ?_, by norm_num⟩
    norm_num [violinAxis, remapZeroRange, padRange]

/-- C6 counterexample: with declared bounds 0 and 1 and the point layer
shown, the claimed range [dmin - 0.005·span, dmax + 0.005·span] is not
what the code produces (the upper pad uses the already-lowered xmin). -/
theorem claim_C6_cex :
    (violinAxis true (some 0) (some 1)).2 ≠
      some (0 - (1 - 0) * (1 / 200), 1 + (1 - 0) * (1 / 200)) := by
  norm_num [violinAxis, remapZeroRange, padRange]

/-- C6 amended: with both bounds present and the point layer shown, the
lower limit is dmin minus 0.5% of the span, but the upper limit is dmax
plus 0.5% of the span measured after the lower pad — 0.5025% of the span
(span taken after the degenerate 0..0 remap to 0..1). -/
theorem claim_C6_amended (a b : ℚ) :
    (violinAxis true (some a) (some b)).2 =
      some (a - ((if a = 0 ∧ b = 0 then 1 else b) - a) * (1 / 200),
        (if a = 0 ∧ b = 0 then (1 : ℚ) else b) +
          ((if a = 0 ∧ b = 0 then (1 : ℚ) else b) - a) * (201 / 40000)) := by
  by_cases h : a = 0 ∧ b = 0
  · obtain ⟨ha, hb⟩ := h
    subst ha; subst hb
    norm_num [violinAxis, remapZeroRange, padRange]
  · simp only [violinAxis, remapZeroRange, padRange, Option.some.injEq, if_neg h,
      if_true]
    exact Prod.ext (by ring) (by ring)

/-- The `top_n` mask has one entry per z-score. -/
theorem topNMask_length (zsqs : List ℚ) (k : ℤ) :
    (topNMask zsqs k).length = zsqs.length := by
  simp [topNMask]

/-- The adaptive mask has one entry per z-score. -/
theorem adaptiveMask_length (zsqs : List ℚ) (nAdded : ℕ) (z : ℚ) :
    (adaptiveMask zsqs nAdded z).length = zsqs.length := by
  simp [adaptiveMask]

/-- C1 counterexample: with all values and the supplied sentinel equal, the
zero-variance return path does not strip the sentinel, so the mask is
longer than the input. -/
theorem claim_C1_cex :
    (find_outliers [(0 : ℚ), 0] none 2 (some 0) none).length ≠
      [(0 : ℚ), 0].length := by
  have hvar : popVar [(0 : ℚ), 0, 0] = 0 := by
    norm_num [popVar, popMean]
  simp [find_outliers, sentinels, topNNonPos, hvar]

/-- C1 amended: the mask returned by `find_outliers` has length equal to
the number of input values on every return path except the
zero-standard-deviation return with at least one sentinel supplied: there
the all-false mask keeps the sentinel entries, having length
`len(values) + len(sentinels)`. -/
theorem claim_C1_amended (values : List ℚ) (top_n : Option ℤ) (z_cutoff : ℚ)
    (minval maxval : Option ℚ) :
    ((find_outliers values top_n z_cutoff minval maxval).length = values.length) ∨
    ((values.isEmpty || topNNonPos top_n) = false ∧
      popVar (values ++ sentinels minval maxval) = 0 ∧
      sentinels minval maxval ≠ [] ∧
      find_outliers values top_n z_cutoff minval maxval =
        List.replicate (values.length + (sentinels minval maxval).length) false) := by
  by_cases hguard : (values.isEmpty || topNNonPos top_n) = true
  · left
    simp [find_outliers, hguard]
  · by_cases hvar : popVar (values ++ sentinels minval maxval) = 0
    · by_cases hadd : sentinels minval maxval = []
      · left
        have hvar' : popVar values = 0 := by
          rw [hadd, List.append_nil] at hvar
          exact hvar
        simp [find_outliers, hguard, hadd, hvar']
      · right
        refine ⟨by simpa using hguard, hvar, hadd, ?_⟩
        simp [find_outliers, hguard, hvar]
    · left
      cases top_n with
      | none =>
        by_cases hadd : (sentinels minval maxval).length = 0
        · simp [find_outliers, hguard, hvar, hadd, adaptiveMask_length,
            List.length_append]
        · simp [find_outliers, hguard, hvar, hadd, adaptiveMask_length,
            List.length_append, List.length_take]
      | some k =>
        by_cases hadd : (sentinels minval maxval).length = 0
        · simp [find_outliers, hguard, hvar, hadd, topNMask_length,
            List.length_append]
        · simp [find_outliers, hguard, hvar, hadd, topNMask_length,
            List.length_append, List.length_take]

/-- C7 counterexample: `top_n = 0` with three input values returns a mask
of length 3, not an empty mask. -/
theorem claim_C7_cex :
    (find_outliers [(1 : ℚ), 2, 3] (some 0) 2 none none).length ≠ 0 := by
  simp [find_outliers, topNNonPos]

/-- C7 amended: `find_outliers` returns an all-false mask of length
`len(values)` whenever the input is empty (then the mask has length 0) or
`top_n` is supplied as at most 0 (then the mask keeps one entry per input
value). -/
theorem claim_C7_amended (values : List ℚ) (top_n : Option ℤ) (z_cutoff : ℚ)
    (minval maxval : Option ℚ) :
    (values = [] → find_outliers values top_n z_cutoff minval maxval = []) ∧
    (∀ n : ℤ, top_n = some n → n ≤ 0 →
      find_outliers values top_n z_cutoff minval maxval =
        List.replicate values.length false) := by
  constructor
  · intro hv; subst hv; simp [find_outliers]
  · intro n hn hle
    subst hn
    have ht : topNNonPos (some n) = true := by simp [topNNonPos, hle]
    simp [find_outliers, ht]

/-- C7 witness: the amended statement at the empty list and at a
three-value list with `top_n = 0`. -/
theorem claim_C7_witness :
    find_outliers [] none 2 none none = [] ∧
    find_outliers [(1 : ℚ), 2, 3] (some 0) 2 none none =
      List.replicate 3 false := by
  constructor
  · exact (claim_C7_amended [] none 2 none none).1 rfl
  · exact (claim_C7_amended [(1 : ℚ), 2, 3] (some 0) 2 none none).2 0 rfl (by norm_num)

/-- The strided selection is bounded: if the list fits in `k * c` elements
then taking every `k`-th leaves at most `c`. -/
theorem takeEveryAux_length_le (k : ℕ) :
    ∀ (fuel c : ℕ) (l : List α), l.length ≤ fuel → l.length ≤ k * c →
      (takeEveryAux k fuel l).length ≤ c := by
  intro fuel
  induction fuel with
  | zero => intro c l hl hlen; simp [takeEveryAux]
  | succ n ih =>
    intro c l hl hlen
    cases l with
    | nil => simp [takeEveryAux]
    | cons a rest =>
      have hlc : rest.length + 1 ≤ k * c := by simpa using hlen
      have hc : 1 ≤ c := by
        by_contra h0
        have hc0 : c = 0 := by omega
        rw [hc0, Nat.mul_zero] at hlc
        omega
      have hdrop := List.length_drop (k - 1) rest
      have hfl : (rest.drop (k - 1)).length ≤ n := by
        have : rest.length + 1 ≤ n + 1 := by simpa using hl
        omega
      have hlen2 : (rest.drop (k - 1)).length ≤ k * (c - 1) := by
        have hkc : k * c = k * (c - 1) + k := by
          have h1 : c - 1 + 1 = c := by omega
          calc k * c = k * (c - 1 + 1) := by rw [h1]
            _ = k * (c - 1) + k := by ring
        omega
      have hrec := ih (c - 1) (rest.drop (k - 1)) hfl hlen2
      simp only [takeEveryAux, List.length_cons]
      omega

/-- The head of the value-sorted pair list is a pair of minimal value and
comes from the input. -/
theorem insertionSort_head_min (pairs : List (SampleId × ℚ)) (h : pairs ≠ []) :
    ∃ p t, List.insertionSort valueLe pairs = p :: t ∧ p ∈ pairs ∧
      ∀ q ∈ pairs, p.2 ≤ q.2 := by
  cases hs : List.insertionSort valueLe pairs with
  | nil =>
    have hperm := List.perm_insertionSort valueLe pairs
    rw [hs] at hperm
    exact absurd hperm.symm.eq_nil h
  | cons p t =>
    have hperm := List.perm_insertionSort valueLe pairs
    rw [hs] at hperm
    refine ⟨p, t, rfl, hperm.mem_iff.mp (List.mem_cons_self p t), ?_⟩
    intro q hq
    have hq' : q ∈ p :: t := hperm.mem_iff.mpr hq
    have hsorted := List.sorted_insertionSort valueLe pairs
    rw [hs] at hsorted
    rcases List.mem_cons.mp hq' with rfl | hqt
    · exact le_refl q.2
    · exact (List.sorted_cons.mp hsorted).1 q hqt

/-- C2 counterexample: four distinct values with cap 3 give stride 2, so
the downsample keeps the 1st and 3rd smallest values — the maximum 4 is in
the input (and bounds it) but is absent from the output. -/
theorem claim_C2_cex :
    rankDownsample (some 3) [("a", (1 : ℚ)), ("b", 2), ("c", 3), ("d", 4)] =
      [("a", 1), ("c", 3)] ∧
    ("d", (4 : ℚ)) ∈ [("a", (1 : ℚ)), ("b", 2), ("c", 3), ("d", 4)] ∧
    (∀ q ∈ [("a", (1 : ℚ)), ("b", 2), ("c", 3), ("d", 4)], q.2 ≤ 4) ∧
    ∀ p ∈ rankDownsample (some 3) [("a", (1 : ℚ)), ("b", 2), ("c", 3), ("d", 4)],
      p.2 ≠ 4 := by
  have hval : rankDownsample (some 3) [("a", (1 : ℚ)), ("b", 2), ("c", 3), ("d", 4)] =
      [("a", 1), ("c", 3)] := by
    norm_num [rankDownsample, takeEvery, takeEveryAux, valueLe,
      List.insertionSort, List.orderedInsert]
  refine ⟨hval, by norm_num, by norm_num, ?_⟩
  rw [hval]
  norm_num

/-- C2 amended: the violin downsample is the identity on inputs of size at
most the cap; above the cap it sorts by value ascending and keeps every
`ceil(n / cap)`-th pair by rank, returning at most `cap` pairs, and a pair
carrying the minimum value always survives (it has rank 0) — the maximum,
however, need not survive. -/
theorem claim_C2_amended (c : ℕ) (pairs : List (SampleId × ℚ)) :
    (pairs.length ≤ c → rankDownsample (some c) pairs = pairs) ∧
    (0 < c → (rankDownsample (some c) pairs).length ≤ c) ∧
    (0 < c → pairs ≠ [] →
      ∃ p ∈ rankDownsample (some c) pairs, ∀ q ∈ pairs, p.2 ≤ q.2) := by
  refine ⟨?_, ?_, ?_⟩
  · intro hle
    have hnl : ¬ c < pairs.length := by omega
    simp [rankDownsample, hnl]
  · intro hc
    by_cases hlt : c < pairs.length
    · simp only [rankDownsample, if_pos hlt]
      have hsortlen : (List.insertionSort valueLe pairs).length = pairs.length :=
        (List.perm_insertionSort valueLe pairs).length_eq
      have hn1 : 1 ≤ pairs.length := by omega
      have hstride : (pairs.length + c - 1) / c = (pairs.length - 1) / c + 1 := by
        have h1 : pairs.length + c - 1 = (pairs.length - 1) + c := by omega
        rw [h1, Nat.add_div_right _ hc]
      have h3 : (pairs.length - 1) / c < (pairs.length + c - 1) / c := by omega
      have h4 : pairs.length - 1 < (pairs.length + c - 1) / c * c :=
        (Nat.div_lt_iff_lt_mul hc).mp h3
      have hbound : (List.insertionSort valueLe pairs).length ≤
          ((pairs.length + c - 1) / c) * c := by
        rw [hsortlen]
        calc pairs.length = (pairs.length - 1) + 1 := by omega
          _ ≤ (pairs.length + c - 1) / c * c := Nat.succ_le_of_lt h4
      exact takeEveryAux_length_le _ _ _ _ (le_refl _) hbound
    · simp only [rankDownsample, if_neg hlt]
      omega
  · intro hc hne
    obtain ⟨p, t, hs, hmem, hmin⟩ := insertionSort_head_min pairs hne
    by_cases hlt : c < pairs.length
    · refine ⟨p, ?_, hmin⟩
      simp only [rankDownsample, if_pos hlt]
      rw [hs]
      simp [takeEvery, takeEveryAux]
    · refine ⟨p, ?_, hmin⟩
      simp only [rankDownsample, if_neg hlt]
      exact hmem

/-- C2 witness: the amended statement applied at cap 3 to a four-element
series. -/
theorem claim_C2_witness :
    (0 < 3 ∧
      (rankDownsample (some 3) [("a", (1 : ℚ)), ("b", 2), ("c", 3), ("d", 4)]).length ≤ 3) ∧
    ∃ p ∈ rankDownsample (some 3) [("a", (1 : ℚ)), ("b", 2), ("c", 3), ("d", 4)],
      ∀ q ∈ [("a", (1 : ℚ)), ("b", 2), ("c", 3), ("d", 4)], p.2 ≤ q.2 := by
  refine ⟨⟨by norm_num, ?_⟩, ?_⟩
  · exact (claim_C2_amended 3 [("a", (1 : ℚ)), ("b", 2), ("c", 3), ("d", 4)]).2.1
      (by norm_num)
  · exact (claim_C2_amended 3 [("a", (1 : ℚ)), ("b", 2), ("c", 3), ("d", 4)]).2.2
      (by norm_num) (by simp)

/-- C4: for a series whose current size exceeds the outliers-only
threshold, any interactive point layer exists only when every value is
numeric and then consists exactly of the pairs flagged by `find_outliers`
run with the series' declared min/max as sentinel bounds; a series with a
non-numeric value draws no points at all in this regime. -/
theorem claim_C4 (thrNoPoints thrOutliers : ℕ) (pairs : List (SampleId × RawVal))
    (dmin dmax : Option ℚ) (violinPairs : List (SampleId × RawVal))
    (hsize : thrOutliers < pairs.length) :
    ((pairs.all fun p => p.2.isNum) = false →
      violinDrawnPoints thrNoPoints thrOutliers pairs dmin dmax violinPairs = []) ∧
    (violinDrawnPoints thrNoPoints thrOutliers pairs dmin dmax violinPairs ≠ [] →
      (pairs.all fun p => p.2.isNum) = true ∧
      violinDrawnPoints thrNoPoints thrOutliers pairs dmin dmax violinPairs =
        (violinOutlierPoints (numericPairs pairs) dmin dmax).map
          (fun p => (p.1, RawVal.num p.2))) ∧
    ((pairs.all fun p => p.2.isNum) = true → pairs.length ≤ thrNoPoints →
      violinDrawnPoints thrNoPoints thrOutliers pairs dmin dmax violinPairs =
        (violinOutlierPoints (numericPairs pairs) dmin dmax).map
          (fun p => (p.1, RawVal.num p.2))) := by
  by_cases hsp : pairs.length ≤ thrNoPoints
  · by_cases hnum : (pairs.all fun p => p.2.isNum) = true
    · refine ⟨by simp [hnum], ?_, ?_⟩
      · intro _
        refine ⟨hnum, ?_⟩
        simp [violinDrawnPoints, violinScatterValues, hsize, hsp, hnum]
      · intro _ _
        simp [violinDrawnPoints, violinScatterValues, hsize, hsp, hnum]
    · have hnum' : (pairs.all fun p => p.2.isNum) = false := by
        simpa using hnum
      refine ⟨?_, ?_, ?_⟩
      · intro _
        simp [violinDrawnPoints, violinScatterValues, hsize, hsp, hnum']
      · intro hne
        exfalso
        apply hne
        simp [violinDrawnPoints, violinScatterValues, hsize, hsp, hnum']
      · intro h
        rw [h] at hnum'
        cases hnum'
  · refine ⟨?_, ?_, ?_⟩
    · intro _
      simp [violinDrawnPoints, hsp]
    · intro hne
      exfalso
      apply hne
      simp [violinDrawnPoints, hsp]
    · intro _ h
      exact absurd h hsp


/-- C4 witness: the statement applied to a numeric three-sample series
above an outliers-only threshold of 1. -/
theorem claim_C4_witness :
    (1 : ℕ) < [("a", RawVal.num 0), ("b", RawVal.num 0), ("c", RawVal.num 100)].length ∧
    violinDrawnPoints 5 1
        [("a", RawVal.num 0), ("b", RawVal.num 0), ("c", RawVal.num 100)] none none [] =
      (violinOutlierPoints
          (numericPairs [("a", RawVal.num 0), ("b", RawVal.num 0), ("c", RawVal.num 100)])
          none none).map (fun p => (p.1, RawVal.num p.2)) := by
  refine ⟨by norm_num, ?_⟩
  exact (claim_C4 5 1 _ none none [] (by norm_num)).2.2 (by decide) (by norm_num)

/-- Zipping two reversed lists of equal length is the reverse of the zip:
reversal keeps the positional pairing intact. -/
theorem zip_reverse {α β : Type} :
    ∀ (l₁ : List α) (l₂ : List β), l₁.length = l₂.length →
      l₁.reverse.zip l₂.reverse = (l₁.zip l₂).reverse := by
  intro l₁
  induction l₁ with
  | nil =>
    intro l₂ h
    cases l₂ with
    | nil => simp
    | cons b t => simp at h
  | cons a t ih =>
    intro l₂ h
    cases l₂ with
    | nil => simp at h
    | cons b u =>
      have hl : t.length = u.length := by simpa using h
      have hrl : t.reverse.length = u.reverse.length := by simp [hl]
      simp only [List.reverse_cons, List.zip_cons_cons]
      rw [List.zip_append hrl, ih u hl]
      simp

/-- A successful `buildCats` relates inputs and outputs pointwise: names
and colors are formatted, data and percentage lists are reversed, and the
length assertions held. -/
theorem buildCats_spec (fmtName fmtColor : String → String) (nSamples : ℕ) :
    ∀ (cats : List InputCat) (cs : List BarCategory),
      buildCats fmtName fmtColor nSamples cats = Except.ok cs →
      List.Forall₂ (fun ic c =>
        c.name = fmtName ic.name ∧ c.color = fmtColor ic.color ∧
        c.data = ic.data.reverse ∧ c.data_pct = (ic.data_pct.getD []).reverse ∧
        nSamples = ic.data.length ∧
        ((ic.data_pct.getD []) ≠ [] → nSamples = (ic.data_pct.getD []).length))
        cats cs := by
  intro cats
  induction cats with
  | nil =>
    intro cs h
    simp only [buildCats] at h
    cases h
    exact List.Forall₂.nil
  | cons ic rest ih =>
    intro cs h
    simp only [buildCats] at h
    by_cases h1 : nSamples = ic.data.reverse.length
    · rw [if_pos h1] at h
      by_cases h2 : (ic.data_pct.getD []).reverse ≠ [] ∧
          nSamples ≠ (ic.data_pct.getD []).reverse.length
      · rw [if_pos h2] at h
        cases h
      · rw [if_neg h2] at h
        cases hb : buildCats fmtName fmtColor nSamples rest with
        | error e => rw [hb] at h; simp [Except.map] at h
        | ok cs' =>
          rw [hb] at h
          simp only [Except.map] at h
          cases h
          refine List.Forall₂.cons ⟨rfl, rfl, rfl, rfl, ?_, ?_⟩ (ih cs' hb)
          · simpa using h1
          · intro hpct
            push_neg at h2
            have := h2 (by simpa using hpct)
            simpa using this
    · rw [if_neg h1] at h
      cases h

/-- A successful `barDatasetCreate` is a successful `buildCats` wrapped
with the reversed sample list. -/
theorem barDatasetCreate_ok (fmtName fmtColor : String → String)
    (cats : List InputCat) (samples : List String) (ds : BarDataset)
    (h : barDatasetCreate fmtName fmtColor cats samples = Except.ok ds) :
    ∃ cs, buildCats fmtName fmtColor samples.reverse.length cats = Except.ok cs ∧
      ds = ⟨cs, samples.reverse⟩ := by
  have h' : Except.map (fun cs => BarDataset.mk cs samples.reverse)
      (buildCats fmtName fmtColor samples.reverse.length cats) = Except.ok ds := h
  cases hb : buildCats fmtName fmtColor samples.reverse.length cats with
  | error e => rw [hb] at h'; simp [Except.map] at h'
  | ok cs =>
    rw [hb] at h'
    simp only [Except.map] at h'
    cases h'
    exact ⟨cs, rfl, rfl⟩

/-- C8 counterexample: a category with one value over two samples makes
`Dataset.create` fail its length assertion — assembly raises instead of
padding the short category with zeros. -/
theorem claim_C8_cex :
    barDatasetCreate id id
      [{ name := "X", color := "0,0,0", data := [some 1], data_pct := none }]
      ["s1", "s2"] =
      Except.error "assert failed: len samples == len cat data" := by rfl

/-- C8 amended: bar dataset assembly asserts that every category's data
length equals the sample count, failing fast on any short category; on
success every category's data length already equals the number of samples,
so the later zero-padding loop is a no-op. -/
theorem claim_C8_amended (fmtName fmtColor : String → String)
    (cats : List InputCat) (samples : List String) (ds : BarDataset)
    (h : barDatasetCreate fmtName fmtColor cats samples = Except.ok ds) :
    (∀ c ∈ ds.cats, c.data.length = ds.samples.length) ∧
    padCats ds = ds ∧
    (∀ ic ∈ cats, ic.data.length = samples.length) := by
  obtain ⟨cs, hb, hds⟩ := barDatasetCreate_ok fmtName fmtColor cats samples ds h
  have hspec := buildCats_spec fmtName fmtColor samples.reverse.length cats cs hb
  subst hds
  rw [List.forall₂_iff_get] at hspec
  obtain ⟨hlen2, hget⟩ := hspec
  have hlen : ∀ c ∈ cs, c.data.length = samples.reverse.length := by
    intro c hc
    obtain ⟨⟨i, hi⟩, rfl⟩ := List.mem_iff_get.mp hc
    obtain ⟨-, -, hdata, -, hlen3, -⟩ := hget i (by omega) hi
    rw [hdata]
    simpa using hlen3.symm
  refine ⟨hlen, ?_, ?_⟩
  · have hlen' : ∀ c ∈ cs, c.data.length = samples.length := by
      intro c hc
      simpa using hlen c hc
    simp only [padCats]
    simp only [BarDataset.mk.injEq, and_true]
    conv_rhs => rw [← List.map_id cs]
    apply List.map_congr_left
    intro c hc
    have hne : ¬ c.data.length < samples.length := by
      rw [hlen' c hc]
      omega
    simp [hne]
  · intro ic hic
    obtain ⟨⟨i, hi⟩, rfl⟩ := List.mem_iff_get.mp hic
    obtain ⟨-, -, -, -, hlen3, -⟩ := hget i hi (by omega)
    simpa using hlen3.symm

/-- C8 witness: the amended statement at a well-formed one-category
dataset over two samples. -/
theorem claim_C8_witness :
    (∀ c ∈ (⟨[⟨"X", "c", [some 2, some 1], []⟩], ["s2", "s1"]⟩ : BarDataset).cats,
      c.data.length =
        (⟨[⟨"X", "c", [some 2, some 1], []⟩], ["s2", "s1"]⟩ : BarDataset).samples.length) ∧
    padCats ⟨[⟨"X", "c", [some 2, some 1], []⟩], ["s2", "s1"]⟩ =
      (⟨[⟨"X", "c", [some 2, some 1], []⟩], ["s2", "s1"]⟩ : BarDataset) ∧
    (∀ ic ∈ [(⟨"X", "c", [some 1, some 2], none⟩ : InputCat)],
      ic.data.length = ["s1", "s2"].length) :=
  claim_C8_amended id id [⟨"X", "c", [some 1, some 2], none⟩] ["s1", "s2"]
    ⟨[⟨"X", "c", [some 2, some 1], []⟩], ["s2", "s1"]⟩ rfl

/-- C10: bar `Dataset.create` reverses the sample list and every
category's data (and present `data_pct`) together, so the positional
sample-to-value pairing of the assembled dataset is exactly the input
pairing reversed. -/
theorem claim_C10 (fmtName fmtColor : String → String)
    (cats : List InputCat) (samples : List String) (ds : BarDataset)
    (h : barDatasetCreate fmtName fmtColor cats samples = Except.ok ds) :
    ds.samples = samples.reverse ∧
    List.Forall₂ (fun ic c =>
      c.data = ic.data.reverse ∧
      ds.samples.zip c.data = (samples.zip ic.data).reverse ∧
      c.data_pct = (ic.data_pct.getD []).reverse ∧
      (∀ dp, ic.data_pct = some dp →
        ds.samples.zip c.data_pct = (samples.zip dp).reverse)) cats ds.cats := by
  obtain ⟨cs, hb, hds⟩ := barDatasetCreate_ok fmtName fmtColor cats samples ds h
  have hspec := buildCats_spec fmtName fmtColor samples.reverse.length cats cs hb
  subst hds
  refine ⟨rfl, ?_⟩
  refine hspec.imp ?_
  rintro ic c ⟨-, -, hdata, hpct, hlen3, hpctlen⟩
  have hslen : samples.length = ic.data.length := by simpa using hlen3
  refine ⟨hdata, ?_, hpct, ?_⟩
  · rw [hdata]
    show samples.reverse.zip ic.data.reverse = _
    exact zip_reverse samples ic.data hslen
  · intro dp hdp
    rw [hpct, hdp]
    by_cases hdpnil : dp = []
    · subst hdpnil
      simp
    · have hplen : samples.length = dp.length := by
        have := hpctlen (by simp [hdp, hdpnil])
        rw [hdp] at this
        simpa using this
      show samples.reverse.zip dp.reverse = _
      exact zip_reverse samples dp hplen

/-- C10 witness: the pairing statement at a one-category dataset with a
percentage list over two samples. -/
theorem claim_C10_witness :
    (⟨[⟨"Y", "c", [some 3, some 1], [some 75, some 25]⟩], ["s2", "s1"]⟩ :
        BarDataset).samples = ["s1", "s2"].reverse ∧
    List.Forall₂ (fun (ic : InputCat) (c : BarCategory) =>
      c.data = ic.data.reverse ∧
      (⟨[⟨"Y", "c", [some 3, some 1], [some 75, some 25]⟩], ["s2", "s1"]⟩ :
          BarDataset).samples.zip c.data = (["s1", "s2"].zip ic.data).reverse ∧
      c.data_pct = (ic.data_pct.getD []).reverse ∧
      (∀ dp, ic.data_pct = some dp →
        (⟨[⟨"Y", "c", [some 3, some 1], [some 75, some 25]⟩], ["s2", "s1"]⟩ :
            BarDataset).samples.zip c.data_pct = (["s1", "s2"].zip dp).reverse))
      [⟨"Y", "c", [some 1, some 3], some [some 25, some 75]⟩]
      (⟨[⟨"Y", "c", [some 3, some 1], [some 75, some 25]⟩], ["s2", "s1"]⟩ :
          BarDataset).cats :=
  claim_C10 id id [⟨"Y", "c", [some 1, some 3], some [some 25, some 75]⟩]
    ["s1", "s2"]
    ⟨[⟨"Y", "c", [some 3, some 1], [some 75, some 25]⟩], ["s2", "s1"]⟩ rfl

/-- Indexing a map over a range below the bound evaluates the function. -/
theorem range_map_getD {α : Type} (m i : ℕ) (f : ℕ → α) (d : α) (h : i < m) :
    ((List.range m).map f).getD i d = f i := by
  have hb : i < ((List.range m).map f).length := by simpa using h
  rw [List.getD_eq_getElem _ _ hb, List.getElem_map, List.getElem_range]

/-- A NaN-propagating sum over a list with no NaN is the ordinary sum. -/
theorem nanSum_map_some {α : Type} (l : List α) (f : α → ℚ) :
    nanSum (l.map (fun a => some (f a))) = some ((l.map f).sum) := by
  induction l with
  | nil => rfl
  | cons a t ih =>
    have ih' : List.foldr nanAdd (some 0) (t.map (fun a => some (f a))) =
        some ((t.map f).sum) := ih
    simp only [List.map_cons, nanSum, List.foldr_cons]
    rw [ih']
    simp [nanAdd]

/-- The entry of the percentage pass at a valid index is the percentage of
that category's entry against the shared denominator. -/
theorem catsPct_entry (cats : List BarCategory) (n i : ℕ)
    (hn : ∀ c ∈ cats, c.data.length = n) (hi : i < n) :
    (catsPct cats).map (fun c => c.data_pct.getD i none) =
      cats.map (fun c => pctValue ((pctSums cats).getD i 0) (c.data.getD i none)) := by
  unfold catsPct
  rw [List.map_map]
  apply List.map_congr_left
  intro c hc
  simp only [Function.comp]
  have hlen := hn c hc
  exact range_map_getD _ _ _ _ (by omega)

/-- The denominator at a valid index is the sum over categories of the
absolute values of the non-NaN entries. -/
theorem pctSums_getD (cats : List BarCategory) (n i : ℕ)
    (hne : cats ≠ []) (hn : ∀ c ∈ cats, c.data.length = n) (hi : i < n) :
    (pctSums cats).getD i 0 =
      (cats.map (fun c => absOrZero (c.data.getD i none))).sum := by
  unfold pctSums
  have hhead : (cats.headD default).data.length = n := by
    cases cats with
    | nil => exact absurd rfl hne
    | cons c t => exact hn c (List.mem_cons_self c t)
  exact range_map_getD _ _ _ _ (by omega)

/-- C3 counterexample: with categories X = [NaN] and Y = [5], sample index
0 has a non-zero category, yet the absolute percentages sum to NaN, not
100 — the NaN entry is skipped by the denominator but its own percentage
stays NaN. -/
theorem claim_C3_cex :
    ((⟨"Y", "c", [some 5], []⟩ : BarCategory) ∈
      [(⟨"X", "c", [none], []⟩ : BarCategory), ⟨"Y", "c", [some 5], []⟩] ∧
      ((⟨"Y", "c", [some 5], []⟩ : BarCategory)).data.getD 0 none ≠ some 0) ∧
    nanSum (((catsPct
        [(⟨"X", "c", [none], []⟩ : BarCategory), ⟨"Y", "c", [some 5], []⟩]).map
      (fun c => c.data_pct.getD 0 none)).map nanAbs) ≠ some 100 := by
  constructor
  · constructor
    · simp
    · norm_num
  · norm_num [catsPct, pctSums, pctValue, absOrZero, nanSum, nanAdd, nanAbs,
      List.range_succ]
    exact fun h => Option.noConfusion h

/-- The bar percentage pass over categories of uniform length: the
denominator is the sum of absolute values of non-NaN entries, a zero
denominator yields 0 for every category, a non-zero denominator yields the
signed percentage value/denominator*100, and at any index with every
entry non-NaN and some entry non-zero the absolute percentages sum to
exactly 100. -/
theorem pctPass_spec (cats : List BarCategory) (n i : ℕ)
    (hne : cats ≠ []) (hn : ∀ c ∈ cats, c.data.length = n) (hi : i < n) :
    ((pctSums cats).getD i 0 =
      (cats.map (fun c => absOrZero (c.data.getD i none))).sum) ∧
    ((pctSums cats).getD i 0 = 0 →
      (catsPct cats).map (fun c => c.data_pct.getD i none) =
        cats.map (fun _ => some 0)) ∧
    ((pctSums cats).getD i 0 ≠ 0 →
      (catsPct cats).map (fun c => c.data_pct.getD i none) =
        cats.map (fun c => (c.data.getD i none).map
          (fun x => x / (pctSums cats).getD i 0 * 100))) ∧
    ((pctSums cats).getD i 0 ≠ 0 → 0 < (pctSums cats).getD i 0) ∧
    ((pctSums cats).getD i 0 ≠ 0 → ∀ x : ℚ,
      (0 < x → 0 < x / (pctSums cats).getD i 0 * 100) ∧
      (x < 0 → x / (pctSums cats).getD i 0 * 100 < 0)) ∧
    ((∀ c ∈ cats, c.data.getD i none ≠ none) →
      (∃ c ∈ cats, c.data.getD i none ≠ some 0) →
      nanSum (((catsPct cats).map (fun c => c.data_pct.getD i none)).map nanAbs) =
        some 100) := by
  have hentry := catsPct_entry cats n i hn hi
  have hsum := pctSums_getD cats n i hne hn hi
  have hpos : (pctSums cats).getD i 0 ≠ 0 → 0 < (pctSums cats).getD i 0 := by
    intro h0
    have hnonneg : 0 ≤ (pctSums cats).getD i 0 := by
      rw [hsum]
      apply List.sum_nonneg
      intro q hq
      obtain ⟨c, -, rfl⟩ := List.mem_map.mp hq
      cases hcd : c.data.getD i none with
      | none => simp [absOrZero]
      | some x => simp [absOrZero]
    rcases lt_or_eq_of_le hnonneg with h | h
    · exact h
    · exact absurd h.symm h0
  refine ⟨hsum, ?_, ?_, hpos, ?_, ?_⟩
  · intro h0
    rw [hentry]
    apply List.map_congr_left
    intro c hc
    unfold pctValue
    rw [if_pos h0]
  · intro h0
    rw [hentry]
    apply List.map_congr_left
    intro c hc
    unfold pctValue
    rw [if_neg h0]
  · intro h0 x
    have hs := hpos h0
    constructor
    · intro hx
      exact mul_pos (div_pos hx hs) (by norm_num)
    · intro hx
      exact mul_neg_of_neg_of_pos (div_neg_of_neg_of_pos hx hs) (by norm_num)
  · intro hall hnz
    have hs0 : (pctSums cats).getD i 0 ≠ 0 := by
      intro hzero
      rw [hsum] at hzero
      obtain ⟨c0, hc0, hne0⟩ := hnz
      cases hcd : c0.data.getD i none with
      | none => exact absurd hcd (hall c0 hc0)
      | some x =>
        have hx0 : x ≠ 0 := fun hx => hne0 (by rw [hcd, hx])
        have hmem : |x| ∈ cats.map (fun c => absOrZero (c.data.getD i none)) :=
          List.mem_map.mpr ⟨c0, hc0, by rw [hcd]; simp [absOrZero]⟩
        have hnonneg : ∀ q ∈ cats.map (fun c => absOrZero (c.data.getD i none)),
            0 ≤ q := by
          intro q hq
          obtain ⟨c, -, rfl⟩ := List.mem_map.mp hq
          cases c.data.getD i none with
          | none => simp [absOrZero]
          | some y => simp [absOrZero]
        have habs : (0 : ℚ) < |x| := abs_pos.mpr hx0
        have hle := List.single_le_sum hnonneg _ hmem
        rw [hzero] at hle
        linarith
    have hspos : 0 < (pctSums cats).getD i 0 := hpos hs0
    have hform : (catsPct cats).map (fun c => c.data_pct.getD i none) =
        cats.map (fun c =>
          some ((c.data.getD i none).getD 0 / (pctSums cats).getD i 0 * 100)) := by
      rw [hentry]
      apply List.map_congr_left
      intro c hc
      cases hcd : c.data.getD i none with
      | none => exact absurd hcd (hall c hc)
      | some x =>
        unfold pctValue
        rw [if_neg hs0]
        simp
    rw [hform, List.map_map]
    have habs_eq : (nanAbs ∘ fun (c : BarCategory) =>
        some ((c.data.getD i none).getD 0 / (pctSums cats).getD i 0 * 100)) =
        fun (c : BarCategory) =>
          some (|(c.data.getD i none).getD 0| * (100 / (pctSums cats).getD i 0)) := by
      funext c
      simp only [Function.comp, nanAbs]
      congr 1
      rw [abs_mul, abs_div, abs_of_pos hspos,
        abs_of_pos (show (0 : ℚ) < 100 by norm_num)]
      ring
    rw [habs_eq, nanSum_map_some]
    congr 1
    rw [List.sum_map_mul_right]
    have hsum_abs : (cats.map (fun c => |(c.data.getD i none).getD 0|)).sum =
        (pctSums cats).getD i 0 := by
      rw [hsum]
      congr 1
      apply List.map_congr_left
      intro c hc
      cases hcd : c.data.getD i none with
      | none => exact absurd hcd (hall c hc)
      | some x => simp [absOrZero]
    rw [hsum_abs]
    rw [← mul_div_assoc, mul_div_cancel_left₀ _ hs0]

/-- C3 amended: in the bar percentage pass the denominator at each sample
index is the sum of absolute values of the non-NaN category entries; a
zero denominator yields 0 for every category (never a division error);
otherwise each category's percentage is value/denominator*100 with the
original sign kept, and at every index where all entries are non-NaN and
some entry is non-zero the absolute percentages sum to exactly 100 (an
index with a NaN entry propagates NaN instead); in particular categories
X = [1, 1] and Y = [1, 3] over samples [s1, s2] yield s1: X=50, Y=50 and
s2: X=25, Y=75. -/
theorem claim_C3_amended :
    (∀ (cats : List BarCategory) (n i : ℕ),
      cats ≠ [] → (∀ c ∈ cats, c.data.length = n) → i < n →
      ((pctSums cats).getD i 0 =
        (cats.map (fun c => absOrZero (c.data.getD i none))).sum) ∧
      ((pctSums cats).getD i 0 = 0 →
        (catsPct cats).map (fun c => c.data_pct.getD i none) =
          cats.map (fun _ => some 0)) ∧
      ((pctSums cats).getD i 0 ≠ 0 →
        (catsPct cats).map (fun c => c.data_pct.getD i none) =
          cats.map (fun c => (c.data.getD i none).map
            (fun x => x / (pctSums cats).getD i 0 * 100))) ∧
      ((pctSums cats).getD i 0 ≠ 0 → 0 < (pctSums cats).getD i 0) ∧
      ((pctSums cats).getD i 0 ≠ 0 → ∀ x : ℚ,
        (0 < x → 0 < x / (pctSums cats).getD i 0 * 100) ∧
        (x < 0 → x / (pctSums cats).getD i 0 * 100 < 0)) ∧
      ((∀ c ∈ cats, c.data.getD i none ≠ none) →
        (∃ c ∈ cats, c.data.getD i none ≠ some 0) →
        nanSum (((catsPct cats).map
          (fun c => c.data_pct.getD i none)).map nanAbs) = some 100)) ∧
    (barDatasetCreate id id
      [⟨"X", "c", [some 1, some 1], none⟩, ⟨"Y", "c", [some 1, some 3], none⟩]
      ["s1", "s2"] =
      Except.ok ⟨[⟨"X", "c", [some 1, some 1], []⟩, ⟨"Y", "c", [some 3, some 1], []⟩],
        ["s2", "s1"]⟩) ∧
    ((addPct ⟨[⟨"X", "c", [some 1, some 1], []⟩, ⟨"Y", "c", [some 3, some 1], []⟩],
        ["s2", "s1"]⟩).cats.map (fun c => c.data_pct) =
      [[some 25, some 50], [some 75, some 50]]) ∧
    ((addPct ⟨[⟨"X", "c", [some 1, some 1], []⟩, ⟨"Y", "c", [some 3, some 1], []⟩],
        ["s2", "s1"]⟩).samples = ["s2", "s1"]) := by
  refine ⟨pctPass_spec, by rfl, ?_, by rfl⟩
  norm_num [addPct, catsPct, pctSums, pctValue, absOrZero, List.range_succ]

/-- C3 witness: the percentage pass at the reversed scenario categories
X = [1, 1], Y = [3, 1] at sample index 0, where the absolute percentages
sum to 100. -/
theorem claim_C3_witness :
    (([(⟨"X", "c", [some 1, some 1], []⟩ : BarCategory),
        ⟨"Y", "c", [some 3, some 1], []⟩] : List BarCategory) ≠ [] ∧ (0 : ℕ) < 2) ∧
    nanSum (((catsPct [(⟨"X", "c", [some 1, some 1], []⟩ : BarCategory),
        ⟨"Y", "c", [some 3, some 1], []⟩]).map
      (fun c => c.data_pct.getD 0 none)).map nanAbs) = some 100 := by
  refine ⟨⟨by simp, by norm_num⟩, ?_⟩
  exact (claim_C3_amended.1
    [(⟨"X", "c", [some 1, some 1], []⟩ : BarCategory), ⟨"Y", "c", [some 3, some 1], []⟩]
    2 0 (by simp) (by simp) (by norm_num)).2.2.2.2.2
    (by simp) ⟨⟨"Y", "c", [some 3, some 1], []⟩, by simp, by norm_num⟩
